import Mathlib

/-!
Shallow embedding of the CROUS city-monitor detection pipeline
(`CROUSScraper` in `src/b.py`): postal-code extraction, city-match
validation, context extraction with deduplication, pagination
estimation, and the page-scanning orchestrator.  Text is modelled as
`List Char` at the ASCII level (the regex classes `\d`, `\w`, `\s` are
modelled by their ASCII fragments, which is what the scraped pages
use).
-/

abbrev Str := List Char

/-- Convert a Lean string literal to our character-list representation. -/
def S (s : String) : Str := s.data

/-- ASCII decimal digit, modelling the regex class `\d`. -/
def isDigitChar (c : Char) : Bool := c.isDigit

/-- Word character for the regex class `\w` (alphanumeric or underscore). -/
def isWordChar (c : Char) : Bool := c.isAlphanum || c == '_'

/-- Whitespace, modelling the regex class `\s` and Python `str.split` /
`str.strip` whitespace (ASCII fragment). -/
def pyIsSpace (c : Char) : Bool :=
  c == ' ' || c == '\t' || c == '\n' || c == '\x0d' || c == '\x0b' || c == '\x0c'

/-- Lower-casing of a text, modelling Python `str.lower` / `re.IGNORECASE`
at the ASCII level. -/
def lowerStr (s : Str) : Str := s.map Char.toLower

/-- Character of `s` at index `i`, if any. -/
def sget (s : Str) (i : Nat) : Option Char :=
  (s.drop i).head?

/-- Whether the character at index `i` exists and is a word character. -/
def wordAt (s : Str) (i : Nat) : Bool :=
  match sget s i with
  | some c => isWordChar c
  | none => false

/-- Word-character status just before index `i` (`false` at the start of
the text). -/
def prevWordAt (s : Str) (i : Nat) : Bool :=
  match i with
  | 0 => false
  | j + 1 => wordAt s j

/-- The regex word boundary `\b` holds at position `i` of `s`. -/
def boundaryAt (s : Str) (i : Nat) : Bool :=
  prevWordAt s i != wordAt s i

/-- The first five characters of `l` exist and are ASCII digits. -/
def digits5 (l : Str) : Bool :=
  (l.take 5).length == 5 && (l.take 5).all isDigitChar

/-- The optional character is absent or is not a word character (a
zero-width `\b` seen from inside a digit run). -/
def nonWordOpt (o : Option Char) : Bool :=
  match o with
  | some c => !isWordChar c
  | none => true

/-- The character just before index `i`, where `prev` is the character
preceding the whole string (used to shift scan positions). -/
def prevOptAt (prev : Option Char) (s : Str) : Nat → Option Char
  | 0 => prev
  | j + 1 => sget s j

/-- A standalone five-digit run starts at index `i` of `s`: no word
character immediately before, five ASCII digits, and no word character
immediately after (so a run of more than five consecutive digits is
never matched, nor digits glued to a letter or underscore). -/
def standalone5At (s : Str) (i : Nat) : Bool :=
  nonWordOpt (prevOptAt none s i) && digits5 (s.drop i) && nonWordOpt (sget s (i + 5))

/-- One attempt of the pattern `\b(\d{5})\b` at the current scan position:
`prev` is the character just before the position (`none` at the start of
the text), `l` is the remaining suffix. -/
def okHere (prev : Option Char) (l : Str) : Bool :=
  nonWordOpt prev && digits5 l && nonWordOpt (l.drop 5).head?

/-- The scan attempt of `okHere` re-expressed at absolute index `i` of
the original text, `prev` being the character before the whole text. -/
def okHereAt (prev : Option Char) (s : Str) (i : Nat) : Bool :=
  okHere (prevOptAt prev s i) (s.drop i)

/-- Left-to-right scan of `re.search(r'\b(\d{5})\b', ...)`: try the
pattern at each position, return the first match. -/
def scanPostal (prev : Option Char) : Str → Option Str
  | [] => none
  | c :: rest =>
    if okHere prev (c :: rest) then some ((c :: rest).take 5)
    else scanPostal (some c) rest

/-- Embeds `CROUSScraper.extract_postal_code` (src/b.py:182):
`re.search(r'\b(\d{5})\b', text)`, returning the first standalone
five-digit group if any. -/
def extract_postal_code (text : Str) : Option Str :=
  scanPostal none text

/-- Embeds the dictionary `self.city_postal_codes` (src/b.py:32): each
city maps to the regex `NN\d{3}`, represented here by its two-digit
literal prefix `NN`. -/
def city_postal_codes : List (Str × Str) :=
  [ (S "paris", S "75"), (S "lyon", S "69"), (S "marseille", S "13"),
    (S "toulouse", S "31"), (S "nice", S "06"), (S "nantes", S "44"),
    (S "strasbourg", S "67"), (S "montpellier", S "34"),
    (S "bordeaux", S "33"), (S "lille", S "59"), (S "rennes", S "35"),
    (S "reims", S "51"), (S "grenoble", S "38") ]

/-- Association-list lookup (Python `dict` access restricted to the keys
actually present). -/
def lookupCity : List (Str × Str) → Str → Option Str
  | [], _ => none
  | (k, v) :: rest, c => if c = k then some v else lookupCity rest c

/-- Embeds `re.match(pattern, postal_code)` for a city pattern `NN\d{3}`
(src/b.py:210): the literal prefix at the start, then three digits. -/
def reMatchCityPattern (pref p : Str) : Bool :=
  pref.isPrefixOf p
  && (((p.drop pref.length).take 3).length == 3
      && ((p.drop pref.length).take 3).all isDigitChar)

/-- The whole-word pattern `\b<city>\b` matches `s` at position `i`. -/
def matchWholeWordAt (city s : Str) (i : Nat) : Bool :=
  boundaryAt s i && city.isPrefixOf (s.drop i) && boundaryAt s (i + city.length)

/-- `re.search(\b<city>\b, s)` succeeds somewhere in `s` (no lowering). -/
def hasWholeWord (city s : Str) : Bool :=
  (List.range (s.length + 1)).any (matchWholeWordAt city s)

/-- Case-insensitive whole-word occurrence of the (lower-cased) target
city, as in `re.search(rf'\b{re.escape(city)}\b', text.lower(),
re.IGNORECASE)` (src/b.py:213). -/
def hasCityWholeWord (city text : Str) : Bool :=
  hasWholeWord city (lowerStr text)

/-- Embeds `CROUSScraper.is_valid_city_match` (src/b.py:189): extract the
first postal code; Paris requires a `75` prefix; other mapped cities with
a postal code require a match of their `NN\d{3}` pattern; everything else
falls back to requiring the city name as a whole word plus any postal
code. -/
def is_valid_city_match (city text : Str) : Bool :=
  let postal := extract_postal_code text
  if city = S "paris" then
    match postal with
    | some p => (S "75").isPrefixOf p
    | none => false
  else
    match lookupCity city_postal_codes city, postal with
    | some pat, some p => reMatchCityPattern pat p
    | _, _ => hasCityWholeWord city text && postal.isSome

/-- Python `str.strip()`: remove whitespace at both ends. -/
def pyStrip (s : Str) : Str :=
  ((s.dropWhile pyIsSpace).reverse.dropWhile pyIsSpace).reverse

/-- Helper for `pySplit`: `cur` is the reversed current word. -/
def pySplitAux : Str → Str → List Str
  | cur, [] => if cur = [] then [] else [cur.reverse]
  | cur, c :: rest =>
    if pyIsSpace c then
      if cur = [] then pySplitAux [] rest
      else cur.reverse :: pySplitAux [] rest
    else pySplitAux (c :: cur) rest

/-- Python `str.split()` with no argument: split on whitespace runs,
discarding empty pieces. -/
def pySplit (s : Str) : List Str := pySplitAux [] s

/-- Python `' '.join(words)`. -/
def joinSpace : List Str → Str
  | [] => []
  | [w] => w
  | w :: ws => w ++ ' ' :: joinSpace ws

/-- The context normalisation of src/b.py:265: truncate to 400
characters, strip, and collapse internal whitespace to single spaces
(`' '.join(text[:400].strip().split())`). -/
def mkContext (elementText : Str) : Str :=
  joinSpace (pySplit (pyStrip (elementText.take 400)))

/-- No two consecutive whitespace characters occur in the text. -/
def noTwoAdjWs : Str → Bool
  | [] => true
  | [_] => true
  | a :: b :: t => !(pyIsSpace a && pyIsSpace b) && noTwoAdjWs (b :: t)

/-- The text has fully collapsed whitespace: no leading or trailing
whitespace, no two consecutive whitespace characters, and every
whitespace character is a plain space. -/
def collapsedWs (s : Str) : Bool :=
  (match s.head? with
   | some c => !pyIsSpace c
   | none => true)
  && (match s.getLast? with
      | some c => !pyIsSpace c
      | none => true)
  && noTwoAdjWs s
  && s.all fun c => !pyIsSpace c || c == ' '

/-- A text node returned by `find_all(text=re.compile(...))` together
with its surroundings, as `extract_city_context` (src/b.py:233) consumes
it.  `nodeText` is the matched `NavigableString`; `beforeText` and
`afterText` are the concatenations of the stripped sibling strings of
the same parent that precede resp. follow it, so that
`parent.get_text(strip=True)` is `beforeText ++ strip nodeText ++
afterText`.  `headingText` is the text of the heading found by the
`find h1..h6 / find_previous / find_next` chain (`none` when no heading
exists anywhere), and `href` the `href` of the nearest anchor
(`find('a') or find_parent('a')`), if any; heading search and URL
resolution (`urljoin`) are kept abstract since they walk DOM structure
that is not otherwise observable. -/
structure Hit where
  nodeText : Str
  beforeText : Str
  afterText : Str
  headingText : Option Str
  href : Option Str
  deriving DecidableEq, Repr

/-- One entry of the per-page result list built by
`extract_city_context` (src/b.py:269): the dict
`{'title', 'link', 'context', 'page_url'}`.  `link` carries the raw
`href` (URL resolution is not modelled; no property below depends on
it). -/
structure Ctx where
  title : Str
  link : Option Str
  context : Str
  page_url : Str
  deriving DecidableEq, Repr

/-- The `parent.get_text(strip=True)` text of a hit's parent element. -/
def elementTextOf (h : Hit) : Str :=
  h.beforeText ++ pyStrip h.nodeText ++ h.afterText

/-- Processing of one matched text node inside the `for text in
all_elements` loop of `extract_city_context` (src/b.py:242-275):
validate the parent's text, resolve title and link, build the collapsed
context, and keep it only when longer than 10 characters. -/
def processHit (city pageUrl : Str) (h : Hit) : Option Ctx :=
  let elementText := elementTextOf h
  if is_valid_city_match city elementText then
    let context := mkContext elementText
    if context ≠ [] ∧ context.length > 10 then
      some ⟨h.headingText.getD (S "Unknown"), h.href, context, pageUrl⟩
    else none
  else none

/-- The raw `contexts` list of `extract_city_context` before
deduplication: only text nodes whose own string matches the whole-word
city regex are returned by `find_all`, then each is processed. -/
def rawContexts (city pageUrl : Str) (hits : List Hit) : List Ctx :=
  hits.filterMap fun h =>
    if hasCityWholeWord city h.nodeText then processHit city pageUrl h else none

/-- The deduplication key `(ctx['title'], ctx['context'][:100])`
(src/b.py:280). -/
def dedupKey (c : Ctx) : Str × Str := (c.title, c.context.take 100)

/-- The `seen`-set deduplication loop of src/b.py:277-283, with the set
modelled as the list of keys inserted so far. -/
def dedupAux (seen : List (Str × Str)) : List Ctx → List Ctx
  | [] => []
  | c :: rest =>
    if dedupKey c ∈ seen then dedupAux seen rest
    else c :: dedupAux (dedupKey c :: seen) rest

/-- Embeds `CROUSScraper.extract_city_context` (src/b.py:233): build the
contexts for every matching text node, deduplicate preserving first-seen
order, and cap the result at 5 entries (`unique_contexts[:5]`). -/
def extract_city_context (city pageUrl : Str) (hits : List Hit) : List Ctx :=
  (dedupAux [] (rawContexts city pageUrl hits)).take 5

/-- Observable content of one fetched page, as the pipeline consumes it:
`titleText` is the `<title>` text; `navLabels` holds, for each
pagination selector that matched, the label texts of the
`a`/`span`/`button` elements inside its first match, in selector order;
`rawText` is `soup.get_text()` of the uncleaned page; `hrefs` the
`href` values of all links; `cleanedText` the text after
`remove_only_search_elements`; `hits` the matched text nodes for the
context extractor; `canonical` the canonical-link href. -/
structure Page where
  titleText : Option Str
  navLabels : List (List Str)
  rawText : Str
  hrefs : List Str
  cleanedText : Str
  hits : List Hit
  canonical : Option Str

/-- Scan of `re.search` with a position-wise attempt function `f`:
return the first position's result that succeeds. -/
def reSearch (f : Str → Option Nat) : Str → Option Nat
  | [] => f []
  | c :: rest =>
    match f (c :: rest) with
    | some n => some n
    | none => reSearch f rest

/-- Greedy `\d+` followed by the rest, when at least one digit is
present: returns the numeric value and the remaining text. -/
def takeDigits1 (s : Str) : Option (Nat × Str) :=
  let t := s.takeWhile isDigitChar
  if t.isEmpty then none
  else some (t.foldl (fun n c => n * 10 + (c.toNat - 48)) 0, s.dropWhile isDigitChar)

/-- Greedy `\s+`, requiring at least one whitespace character. -/
def takeWs1 (s : Str) : Option Str :=
  if (s.takeWhile pyIsSpace).isEmpty then none else some (s.dropWhile pyIsSpace)

/-- One attempt of `page\s+\d+\s+(?:sur|of)\s+(\d+)` at the current
position of an (already lowered) title. -/
def tryPageOf (s : Str) : Option Nat :=
  if (S "page").isPrefixOf s then
    match takeWs1 (s.drop 4) with
    | none => none
    | some s1 =>
      match takeDigits1 s1 with
      | none => none
      | some (_, s2) =>
        match takeWs1 s2 with
        | none => none
        | some s3 =>
          let s4? : Option Str :=
            if (S "sur").isPrefixOf s3 then some (s3.drop 3)
            else if (S "of").isPrefixOf s3 then some (s3.drop 2)
            else none
          match s4? with
          | none => none
          | some s4 =>
            match takeWs1 s4 with
            | none => none
            | some s5 =>
              match takeDigits1 s5 with
              | none => none
              | some (m, _) => some m
  else none

/-- Pattern 1 of `get_total_pages` (src/b.py:93): the
`page N sur/of M` pattern in the page title, case-insensitively. -/
def titlePages (p : Page) : Option Nat :=
  match p.titleText with
  | none => none
  | some t => reSearch tryPageOf (lowerStr t)

/-- Python `str.isdigit()` at the ASCII level: nonempty and all digits. -/
def isDigitStr (t : Str) : Bool := !t.isEmpty && t.all isDigitChar

/-- Numeric value of a digit string (Python `int`). -/
def digitsToNat (t : Str) : Nat := t.foldl (fun n c => n * 10 + (c.toNat - 48)) 0

/-- Pattern 2 of `get_total_pages` (src/b.py:100-119): for the first
pagination selector whose region yields at least one purely numeric
label, return the maximum label value; otherwise keep trying. -/
def navPages : List (List Str) → Option Nat
  | [] => none
  | labels :: rest =>
    let nums := labels.filterMap fun t => if isDigitStr t then some (digitsToNat t) else none
    match nums with
    | [] => navPages rest
    | n :: ns => some (ns.foldl Nat.max n)

/-- One attempt of `(\d+)\s+résultats?` at the current position of the
(lowered) page text. -/
def tryResults (s : Str) : Option Nat :=
  match takeDigits1 s with
  | none => none
  | some (n, s1) =>
    match takeWs1 s1 with
    | none => none
    | some s2 => if (S "résultat").isPrefixOf s2 then some n else none

/-- Pattern 3 of `get_total_pages` (src/b.py:121-127): parse the result
count `N` and estimate `ceil(N / 20)` pages, capped at 10. -/
def resultPages (p : Page) : Option Nat :=
  match reSearch tryResults (lowerStr p.rawText) with
  | none => none
  | some n => some (Nat.min ((n + 19) / 20) 10)

/-- One attempt of `[?&]page=(\d+)` at the current position of a link
target. -/
def tryPageParam (s : Str) : Option Nat :=
  match s with
  | [] => none
  | c :: rest =>
    if (c == '?' || c == '&') && (S "page=").isPrefixOf rest then
      match takeDigits1 (rest.drop 5) with
      | none => none
      | some (n, _) => some n
    else none

/-- Pattern 4 of `get_total_pages` (src/b.py:129-140): the maximum
`page=N` query parameter over all link targets (first match per link),
starting from 1. -/
def linkPages (hrefs : List Str) : Nat :=
  hrefs.foldl
    (fun m h =>
      match reSearch tryPageParam h with
      | some n => Nat.max m n
      | none => m) 1

/-- Embeds `CROUSScraper.get_total_pages` (src/b.py:89): the ordered
fallback chain, first successful pattern wins; pattern 4 returns its
maximum when above 1, else 1. -/
def get_total_pages (p : Page) : Nat :=
  match titlePages p with
  | some n => n
  | none =>
    match navPages p.navLabels with
    | some n => n
    | none =>
      match resultPages p with
      | some n => n
      | none =>
        let m := linkPages p.hrefs
        if m > 1 then m else 1

/-- Embeds `CROUSScraper.check_for_city_anywhere` (src/b.py:217): the
cleaned page text must contain the city as a whole word and pass the
validator. -/
def check_for_city_anywhere (city : Str) (p : Page) : Bool :=
  hasCityWholeWord city p.cleanedText && is_valid_city_match city p.cleanedText

/-- The `page_url` recorded in each context: the canonical link's href,
else the empty string (src/b.py:273). -/
def pageUrlOf (p : Page) : Str := p.canonical.getD []

/-- Contribution of page number `n` to a scan, tagged with its page
number (src/b.py:302-319): nothing when the fetch fails or the page does
not pass `check_for_city_anywhere`, else the extracted contexts. -/
def pageContrib (city : Str) (fetch : Nat → Option Page) (n : Nat) : List (Nat × Ctx) :=
  match fetch n with
  | none => []
  | some p =>
    if check_for_city_anywhere city p then
      (extract_city_context city (pageUrlOf p) p.hits).map fun c => (n, c)
    else []

/-- The aggregated `results` list of `scan_for_city_accommodations`:
page 1 first, then pages `2 .. min max_pages (get_total_pages page1)` in
order; empty when the first fetch fails. -/
def scanList (city : Str) (maxPages : Nat) (fetch : Nat → Option Page) : List (Nat × Ctx) :=
  match fetch 1 with
  | none => []
  | some p1 =>
    pageContrib city fetch 1
      ++ (List.range' 2 (Nat.min maxPages (get_total_pages p1) - 1)).flatMap
           (pageContrib city fetch)

/-- Embeds `CROUSScraper.scan_for_city_accommodations` (src/b.py:290):
`None` when the first page cannot be fetched, `None` when no page
contributed anything, otherwise the aggregated results. -/
def scan_for_city_accommodations (city : Str) (maxPages : Nat)
    (fetch : Nat → Option Page) : Option (List (Nat × Ctx)) :=
  match fetch 1 with
  | none => none
  | some _ =>
    let results := scanList city maxPages fetch
    if results.isEmpty then none else some results

/-- The same fetch environment with the fetch of page `k` failing. -/
def fetchDrop (fetch : Nat → Option Page) (k : Nat) : Nat → Option Page :=
  fun n => if n = k then none else fetch n

/-- A text node whose parent text puts the city mention beyond the
400-character truncation point: 400 filler characters followed by a
genuine city-plus-postal-code mention. -/
def c8Hit : Hit :=
  ⟨List.replicate 400 'a' ++ S " paris 75001 ok", [], [], none, none⟩

/-- A page whose only pagination signal is a result count of zero
(`"0 résultats"`). -/
def c5Page : Page := ⟨none, [], S "0 résultats", [], [], [], none⟩

/-- Scan fixture, page 1: one valid Paris listing, and a `page=3` link
so that the pagination estimator reports 3 pages. -/
def pgA : Page :=
  ⟨none, [], [], [S "/s?page=3"], S "paris 75001",
    [⟨S "paris 75001 logement A", [], [], some (S "TA"), none⟩], none⟩

/-- Scan fixture, page 2: one valid Paris listing. -/
def pgB : Page :=
  ⟨none, [], [], [], S "paris 75002",
    [⟨S "paris 75002 logement B", [], [], some (S "TB"), none⟩], none⟩

/-- Scan fixture, page 3: one valid Paris listing. -/
def pgC : Page :=
  ⟨none, [], [], [], S "paris 75003",
    [⟨S "paris 75003 logement C", [], [], some (S "TC"), none⟩], none⟩

/-- Scan fixture fetch environment: pages 1 to 3 succeed. -/
def c9fetch : Nat → Option Page :=
  fun n =>
    if n = 1 then some pgA
    else if n = 2 then some pgB
    else if n = 3 then some pgC
    else none

example : extract_postal_code (S "paris saclay 91400 x") = some (S "91400") := by decide
example : extract_postal_code (S "no code 123456 here") = none := by decide
example : is_valid_city_match (S "paris") (S "paris saclay 91400") = false := by decide
example : is_valid_city_match (S "paris") (S "paris 75013") = true := by decide
example : is_valid_city_match (S "lyon") (S "lyon centre") = false := by decide
example : is_valid_city_match (S "angers") (S "angers 49000") = true := by decide
example : is_valid_city_match (S "angers") (S "angers sans code") = false := by decide
example : is_valid_city_match (S "lyon") (S "ici 69100 sans nom") = true := by decide

/-! ## Basic lemmas about the prefix table and postal-code extraction -/

theorem lookupCity_mem {l : List (Str × Str)} {c v : Str}
    (h : lookupCity l c = some v) : ∃ k, (k, v) ∈ l := by
  induction l with
  | nil => simp [lookupCity] at h
  | cons kv rest ih =>
    obtain ⟨k, w⟩ := kv
    rw [lookupCity] at h
    split at h
    · injection h with h
      exact ⟨k, by rw [← h]; exact List.mem_cons_self _ _⟩
    · obtain ⟨k', hk'⟩ := ih h
      exact ⟨k', List.mem_cons_of_mem _ hk'⟩

theorem lookup_pref_length {c pf : Str}
    (h : lookupCity city_postal_codes c = some pf) : pf.length = 2 := by
  obtain ⟨k, hk⟩ := lookupCity_mem h
  have hall : ∀ kv ∈ city_postal_codes, kv.2.length = 2 := by decide
  exact hall (k, pf) hk

theorem lookup_paris_eq : lookupCity city_postal_codes (S "paris") = some (S "75") := by
  decide

theorem isPrefixOf_iff_take {a b : Str} :
    a.isPrefixOf b = true ↔ b.take a.length = a := by
  rw [List.isPrefixOf_iff_prefix]
  constructor
  · intro h; exact (List.prefix_iff_eq_take.mp h).symm
  · intro h; exact List.prefix_iff_eq_take.mpr h.symm

theorem okHereAt_cons (prev : Option Char) (c : Char) (rest : Str) (i : Nat) :
    okHereAt prev (c :: rest) (i + 1) = okHereAt (some c) rest i := by
  cases i <;> rfl

theorem scanPostal_eq_some {s : Str} : ∀ {prev : Option Char} {p : Str},
    scanPostal prev s = some p →
    ∃ i, okHereAt prev s i = true ∧ p = (s.drop i).take 5 ∧
      ∀ j, j < i → okHereAt prev s j = false := by
  induction s with
  | nil => intro prev p h; simp [scanPostal] at h
  | cons c rest ih =>
    intro prev p h
    by_cases hok : okHere prev (c :: rest) = true
    · rw [scanPostal, if_pos hok] at h
      injection h with h
      exact ⟨0, hok, h.symm, fun j hj => absurd hj (Nat.not_lt_zero j)⟩
    · rw [scanPostal, if_neg hok] at h
      obtain ⟨i, hi, hp, hmin⟩ := ih h
      refine ⟨i + 1, ?_, hp, ?_⟩
      · rw [okHereAt_cons]; exact hi
      · intro j hj
        cases j with
        | zero =>
          cases hb : okHere prev (c :: rest) with
          | false => exact hb
          | true => exact absurd hb hok
        | succ k => rw [okHereAt_cons]; exact hmin k (Nat.lt_of_succ_lt_succ hj)

theorem scanPostal_eq_none {s : Str} : ∀ {prev : Option Char},
    scanPostal prev s = none → ∀ i, okHereAt prev s i = false := by
  induction s with
  | nil =>
    intro prev _ i
    show okHere (prevOptAt prev [] i) ([].drop i) = false
    rw [List.drop_nil]
    simp [okHere, digits5]
  | cons c rest ih =>
    intro prev h i
    by_cases hok : okHere prev (c :: rest) = true
    · rw [scanPostal, if_pos hok] at h; cases h
    · rw [scanPostal, if_neg hok] at h
      cases i with
      | zero =>
        cases hb : okHere prev (c :: rest) with
        | false => exact hb
        | true => exact absurd hb hok
      | succ k => rw [okHereAt_cons]; exact ih h k

theorem okHereAt_none_eq (s : Str) (i : Nat) :
    okHereAt none s i = standalone5At s i := by
  unfold okHereAt okHere standalone5At sget
  rw [List.drop_drop]

theorem extract_eq_some {text p : Str} (h : extract_postal_code text = some p) :
    ∃ i, standalone5At text i = true ∧ p = (text.drop i).take 5 ∧
      ∀ j, j < i → standalone5At text j = false := by
  obtain ⟨i, hi, hp, hmin⟩ := scanPostal_eq_some (s := text) h
  exact ⟨i, by rw [← okHereAt_none_eq]; exact hi, hp,
    fun j hj => by rw [← okHereAt_none_eq]; exact hmin j hj⟩

theorem extract_eq_none {text : Str} (h : extract_postal_code text = none) :
    ∀ i, standalone5At text i = false := fun i => by
  rw [← okHereAt_none_eq]; exact scanPostal_eq_none (s := text) h i

theorem extract_isSome_iff (text : Str) :
    (extract_postal_code text).isSome = true ↔ ∃ i, standalone5At text i = true := by
  cases h : extract_postal_code text with
  | none =>
    constructor
    · intro hfalse; exact absurd hfalse (by simp)
    · rintro ⟨i, hi⟩; rw [extract_eq_none h i] at hi; exact absurd hi (by simp)
  | some p =>
    constructor
    · intro _
      obtain ⟨i, hi, _, _⟩ := extract_eq_some h
      exact ⟨i, hi⟩
    · intro _; rfl

theorem extract_shape {text p : Str} (h : extract_postal_code text = some p) :
    p.length = 5 ∧ p.all isDigitChar = true := by
  obtain ⟨i, hi, hp, _⟩ := extract_eq_some h
  simp only [standalone5At, digits5, Bool.and_eq_true, beq_iff_eq] at hi
  subst hp
  exact ⟨hi.1.2.1, hi.1.2.2⟩

/-! ## Claims about the Match Validator -/

/-- C1: for every target city that has a postal-code prefix mapping and
every text block whose first standalone 5-digit postal code has a
2-digit prefix different from the city's mapped prefix,
`is_valid_city_match` rejects, even if the city name occurs in the block
as a whole word (no hypothesis restricts name occurrence). -/
theorem C1_wrong_prefix_rejected (city pf text p : Str)
    (hmap : lookupCity city_postal_codes city = some pf)
    (hpost : extract_postal_code text = some p)
    (hdiff : p.take 2 ≠ pf) :
    is_valid_city_match city text = false := by
  by_cases hparis : city = S "paris"
  · subst hparis
    rw [lookup_paris_eq] at hmap
    injection hmap with hmap
    simp only [is_valid_city_match, hpost, if_pos rfl]
    cases hb : (S "75").isPrefixOf p with
    | false => rfl
    | true =>
      exfalso
      apply hdiff
      rw [← hmap]
      exact isPrefixOf_iff_take.mp hb
  · simp only [is_valid_city_match, if_neg hparis, hmap, hpost]
    unfold reMatchCityPattern
    cases hb : pf.isPrefixOf p with
    | false => simp [hb]
    | true =>
      exfalso
      have ht := isPrefixOf_iff_take.mp hb
      rw [lookup_pref_length hmap] at ht
      exact hdiff ht

theorem C1_witness :
    lookupCity city_postal_codes (S "paris") = some (S "75") ∧
      hasCityWholeWord (S "paris") (S "Paris Saclay 91400") = true ∧
      is_valid_city_match (S "paris") (S "Paris Saclay 91400") = false :=
  ⟨by decide, by decide,
    C1_wrong_prefix_rejected (S "paris") (S "75") (S "Paris Saclay 91400")
      (S "91400") (by decide) (by decide) (by decide)⟩

/-- C2: for every target city that has a postal-code prefix mapping, a
text block containing no standalone 5-digit postal code is rejected by
`is_valid_city_match`, regardless of whether the city name occurs in
it. -/
theorem C2_no_postal_rejected (city pf text : Str)
    (hmap : lookupCity city_postal_codes city = some pf)
    (hnone : extract_postal_code text = none) :
    is_valid_city_match city text = false := by
  by_cases hparis : city = S "paris"
  · subst hparis
    simp [is_valid_city_match, hnone]
  · simp only [is_valid_city_match, if_neg hparis, hmap, hnone,
      Option.isSome_none, Bool.and_false]

theorem C2_witness :
    lookupCity city_postal_codes (S "lyon") = some (S "69") ∧
      hasCityWholeWord (S "lyon") (S "lyon campus") = true ∧
      is_valid_city_match (S "lyon") (S "lyon campus") = false :=
  ⟨by decide, by decide,
    C2_no_postal_rejected (S "lyon") (S "69") (S "lyon campus")
      (by decide) (by decide)⟩

/-- C10: for every target city with a prefix mapping,
`is_valid_city_match` accepts any text whose first standalone 5-digit
sequence starts with the mapped 2-digit prefix, even when the city name
does not occur anywhere in the text: the validator never checks name
presence for mapped cities. -/
theorem C10_mapped_ignores_name (city pf text p : Str)
    (hmap : lookupCity city_postal_codes city = some pf)
    (hpost : extract_postal_code text = some p)
    (hpref : p.take 2 = pf)
    (hnoname : hasCityWholeWord city text = false) :
    is_valid_city_match city text = true := by
  have hshape := extract_shape hpost
  by_cases hparis : city = S "paris"
  · subst hparis
    rw [lookup_paris_eq] at hmap
    injection hmap with hmap
    simp only [is_valid_city_match, hpost, if_pos rfl]
    apply isPrefixOf_iff_take.mpr
    show p.take 2 = S "75"
    rw [hpref]
    exact hmap.symm
  · simp only [is_valid_city_match, if_neg hparis, hmap, hpost]
    unfold reMatchCityPattern
    have hlen2 : pf.length = 2 := lookup_pref_length hmap
    have hpre : pf.isPrefixOf p = true :=
      isPrefixOf_iff_take.mpr (by rw [hlen2]; exact hpref)
    rw [hpre, hlen2, Bool.true_and]
    have hplen : p.length = 5 := hshape.1
    have hdl : ((p.drop 2).take 3).length = 3 := by
      rw [List.length_take, List.length_drop, hplen]
      decide
    have hall : ((p.drop 2).take 3).all isDigitChar = true := by
      apply List.all_eq_true.mpr
      intro x hx
      exact List.all_eq_true.mp hshape.2 x
        (List.mem_of_mem_drop (List.mem_of_mem_take hx))
    rw [hall, Bool.and_true, hdl]
    rfl

theorem C10_witness :
    hasCityWholeWord (S "lyon") (S "zone 69100 libre") = false ∧
      is_valid_city_match (S "lyon") (S "zone 69100 libre") = true :=
  ⟨by decide,
    C10_mapped_ignores_name (S "lyon") (S "69") (S "zone 69100 libre")
      (S "69100") (by decide) (by decide) (by decide) (by decide)⟩

/-- C3: for every target city with no known prefix mapping,
`is_valid_city_match` accepts a text block if and only if the city name
occurs in the block as a whole word (case-insensitive) and some
standalone 5-digit postal code is present anywhere in the block. -/
theorem C3_unmapped_iff (city text : Str)
    (hmap : lookupCity city_postal_codes city = none) :
    is_valid_city_match city text = true ↔
      (hasCityWholeWord city text = true ∧ ∃ i, standalone5At text i = true) := by
  have hparis : ¬ city = S "paris" := by
    intro e
    rw [e, lookup_paris_eq] at hmap
    cases hmap
  simp only [is_valid_city_match, if_neg hparis, hmap]
  rw [Bool.and_eq_true, extract_isSome_iff]

theorem C3_witness :
    lookupCity city_postal_codes (S "angers") = none ∧
      (is_valid_city_match (S "angers") (S "Angers 49000 dispo") = true ↔
        (hasCityWholeWord (S "angers") (S "Angers 49000 dispo") = true ∧
          ∃ i, standalone5At (S "Angers 49000 dispo") i = true)) :=
  ⟨by decide, C3_unmapped_iff (S "angers") (S "Angers 49000 dispo") (by decide)⟩

/-- C4: `extract_postal_code` returns the first standalone whole-word
run of exactly 5 ASCII digits when one exists (first-match policy), and
nothing when no such run exists; `standalone5At` requires no adjacent
word character on either side, so a run of more than 5 consecutive
digits is never matched. -/
theorem C4_extract_first_standalone (text : Str) :
    (∀ p, extract_postal_code text = some p →
        ∃ i, standalone5At text i = true ∧ p = (text.drop i).take 5 ∧
          ∀ j, j < i → standalone5At text j = false)
    ∧ (extract_postal_code text = none → ∀ i, standalone5At text i = false) :=
  ⟨fun _ h => extract_eq_some h, fun h => extract_eq_none h⟩

theorem C4_witness :
    ∃ i, standalone5At (S "ab 123456 y 91400 z 75001") i = true ∧
      S "91400" = ((S "ab 123456 y 91400 z 75001").drop i).take 5 ∧
      ∀ j, j < i → standalone5At (S "ab 123456 y 91400 z 75001") j = false :=
  (C4_extract_first_standalone (S "ab 123456 y 91400 z 75001")).1
    (S "91400") (by decide)

/-! ## Lemmas about whitespace collapsing -/

theorem pyStrip_length_le (s : Str) : (pyStrip s).length ≤ s.length := by
  unfold pyStrip
  rw [List.length_reverse]
  calc (((s.dropWhile pyIsSpace).reverse.dropWhile pyIsSpace)).length
      ≤ (s.dropWhile pyIsSpace).reverse.length :=
        (List.dropWhile_sublist _).length_le
    _ = (s.dropWhile pyIsSpace).length := List.length_reverse _
    _ ≤ s.length := (List.dropWhile_sublist _).length_le

theorem joinSpace_cons_length (w : Str) (ws : List Str) :
    (joinSpace (w :: ws)).length ≤ w.length + 1 + (joinSpace ws).length := by
  cases ws with
  | nil => simp [joinSpace]
  | cons w' t =>
    simp only [joinSpace, List.length_append, List.length_cons]
    omega

theorem joinSpace_pySplitAux_length (s : Str) : ∀ cur : Str,
    (joinSpace (pySplitAux cur s)).length ≤ cur.length + s.length := by
  induction s with
  | nil =>
    intro cur
    by_cases hc : cur = []
    · simp [pySplitAux, hc, joinSpace]
    · simp only [pySplitAux, if_neg hc, joinSpace, List.length_reverse,
        List.length_nil, Nat.add_zero]
      exact Nat.le_refl _
  | cons c rest ih =>
    intro cur
    simp only [pySplitAux]
    by_cases hsp : pyIsSpace c = true
    · rw [if_pos hsp]
      by_cases hc : cur = []
      · rw [if_pos hc]
        have h0 := ih []
        simp only [List.length_nil, Nat.zero_add] at h0
        simp only [List.length_cons]
        omega
      · rw [if_neg hc]
        have h1 := joinSpace_cons_length cur.reverse (pySplitAux [] rest)
        have h2 := ih []
        simp only [List.length_reverse, List.length_nil, Nat.zero_add] at h1 h2
        simp only [List.length_cons]
        omega
    · rw [if_neg hsp]
      have h1 := ih (c :: cur)
      simp only [List.length_cons] at h1 ⊢
      omega

theorem pySplitAux_words (s : Str) : ∀ cur : Str,
    cur.all (fun c => !pyIsSpace c) = true →
    ∀ w ∈ pySplitAux cur s, w ≠ [] ∧ w.all (fun c => !pyIsSpace c) = true := by
  induction s with
  | nil =>
    intro cur hcur w hw
    simp only [pySplitAux] at hw
    by_cases hc : cur = []
    · rw [if_pos hc] at hw; cases hw
    · rw [if_neg hc] at hw
      rw [List.mem_singleton] at hw
      subst hw
      refine ⟨?_, by rw [List.all_reverse]; exact hcur⟩
      intro he
      exact hc (List.reverse_eq_nil_iff.mp he)
  | cons c rest ih =>
    intro cur hcur w hw
    simp only [pySplitAux] at hw
    by_cases hsp : pyIsSpace c = true
    · rw [if_pos hsp] at hw
      by_cases hc : cur = []
      · rw [if_pos hc] at hw
        exact ih [] rfl w hw
      · rw [if_neg hc] at hw
        rw [List.mem_cons] at hw
        rcases hw with hw | hw
        · subst hw
          refine ⟨?_, by rw [List.all_reverse]; exact hcur⟩
          intro he
          exact hc (List.reverse_eq_nil_iff.mp he)
        · exact ih [] rfl w hw
    · rw [if_neg hsp] at hw
      have hfc : pyIsSpace c = false := by
        cases hb : pyIsSpace c with
        | false => rfl
        | true => exact absurd hb hsp
      exact ih (c :: cur) (by simp [List.all_cons, hfc, hcur]) w hw

theorem mem_of_getLast?Str {α : Type} {l : List α} {a : α}
    (h : l.getLast? = some a) : a ∈ l := by
  induction l with
  | nil => cases h
  | cons c t ih =>
    cases t with
    | nil =>
      injection h with h
      rw [← h]
      exact List.mem_cons_self _ _
    | cons d t' =>
      rw [List.getLast?_cons_cons] at h
      exact List.mem_cons_of_mem _ (ih h)

theorem pyIsSpace_false_of_all {w : Str} {a : Char}
    (hall : w.all (fun c => !pyIsSpace c) = true) (ha : a ∈ w) :
    pyIsSpace a = false := by
  have := List.all_eq_true.mp hall a ha
  cases hb : pyIsSpace a with
  | false => rfl
  | true => rw [hb] at this; cases this

theorem joinSpace_ne_nil {w : Str} {ws : List Str} (hw : w ≠ []) :
    joinSpace (w :: ws) ≠ [] := by
  cases ws with
  | nil => simpa [joinSpace] using hw
  | cons w' t => simp [joinSpace]

theorem noTwoAdjWs_iff_chain (s : Str) :
    noTwoAdjWs s = true ↔
      List.Chain' (fun a b => (!(pyIsSpace a && pyIsSpace b)) = true) s := by
  induction s with
  | nil => simp [noTwoAdjWs]
  | cons a t ih =>
    cases t with
    | nil => simp [noTwoAdjWs]
    | cons b t' =>
      rw [List.chain'_cons, ← ih]
      show ((!(pyIsSpace a && pyIsSpace b)) && noTwoAdjWs (b :: t')) = true ↔ _
      rw [Bool.and_eq_true]

theorem chain_of_all_nonspace : ∀ w : Str,
    w.all (fun c => !pyIsSpace c) = true →
    List.Chain' (fun a b => (!(pyIsSpace a && pyIsSpace b)) = true) w := by
  intro w
  induction w with
  | nil => intro _; exact List.chain'_nil
  | cons a t ih =>
    intro hall
    rw [List.all_cons, Bool.and_eq_true] at hall
    rw [List.chain'_cons']
    refine ⟨?_, ih hall.2⟩
    intro y _
    have ha : pyIsSpace a = false := by
      cases hb : pyIsSpace a with
      | false => rfl
      | true => rw [hb] at hall; rcases hall with ⟨h1, _⟩; cases h1
    rw [ha, Bool.false_and]
    rfl

theorem joinSpace_head_nonspace : ∀ ws : List Str,
    (∀ w ∈ ws, w ≠ [] ∧ w.all (fun c => !pyIsSpace c) = true) →
    ∀ c, (joinSpace ws).head? = some c → pyIsSpace c = false := by
  intro ws
  cases ws with
  | nil => intro _ c hc; cases hc
  | cons w ws' =>
    intro hgood c hc
    obtain ⟨hne, hall⟩ := hgood w (List.mem_cons_self _ _)
    have hin : c ∈ w := by
      cases w with
      | nil => exact absurd rfl hne
      | cons d w'' =>
        cases ws' with
        | nil =>
          simp only [joinSpace, List.head?_cons] at hc
          injection hc with hc
          rw [← hc]; exact List.mem_cons_self _ _
        | cons w' t =>
          simp only [joinSpace, List.cons_append, List.head?_cons] at hc
          injection hc with hc
          rw [← hc]; exact List.mem_cons_self _ _
    exact pyIsSpace_false_of_all hall hin

theorem joinSpace_getLast_nonspace : ∀ ws : List Str,
    (∀ w ∈ ws, w ≠ [] ∧ w.all (fun c => !pyIsSpace c) = true) →
    ∀ c, (joinSpace ws).getLast? = some c → pyIsSpace c = false := by
  intro ws
  induction ws with
  | nil => intro _ c hc; cases hc
  | cons w ws' ih =>
    intro hgood c hc
    obtain ⟨hne, hall⟩ := hgood w (List.mem_cons_self _ _)
    cases ws' with
    | nil =>
      show _ = false
      exact pyIsSpace_false_of_all hall (mem_of_getLast?Str hc)
    | cons w' t =>
      have hgood' : ∀ u ∈ w' :: t, u ≠ [] ∧ u.all (fun c => !pyIsSpace c) = true :=
        fun u hu => hgood u (List.mem_cons_of_mem _ hu)
      have hne' : joinSpace (w' :: t) ≠ [] :=
        joinSpace_ne_nil (hgood' w' (List.mem_cons_self _ _)).1
      apply ih hgood' c
      simp only [joinSpace, List.getLast?_append] at hc
      cases hL : joinSpace (w' :: t) with
      | nil => exact absurd hL hne'
      | cons d L' =>
        rw [hL, List.getLast?_cons_cons] at hc
        obtain ⟨x, hx⟩ : ∃ x, (d :: L').getLast? = some x :=
          ⟨_, List.getLast?_eq_getLast_of_ne_nil (List.cons_ne_nil d L')⟩
        rw [hx] at hc
        have hc' : x = c := by
          have h2 : some x = some c := hc
          injection h2
        rw [hx, hc']

theorem joinSpace_all_space_is_space : ∀ ws : List Str,
    (∀ w ∈ ws, w ≠ [] ∧ w.all (fun c => !pyIsSpace c) = true) →
    (joinSpace ws).all (fun c => !pyIsSpace c || c == ' ') = true := by
  intro ws
  induction ws with
  | nil => intro _; rfl
  | cons w ws' ih =>
    intro hgood
    have hw := hgood w (List.mem_cons_self _ _)
    have hwall : w.all (fun c => !pyIsSpace c || c == ' ') = true := by
      apply List.all_eq_true.mpr
      intro x hx
      rw [pyIsSpace_false_of_all hw.2 hx]
      rfl
    cases ws' with
    | nil => exact hwall
    | cons w' t =>
      have ih' := ih fun u hu => hgood u (List.mem_cons_of_mem _ hu)
      show (w ++ ' ' :: joinSpace (w' :: t)).all _ = true
      rw [List.all_append, hwall, Bool.true_and, List.all_cons]
      rw [ih', Bool.and_true]
      rfl

theorem joinSpace_chain : ∀ ws : List Str,
    (∀ w ∈ ws, w ≠ [] ∧ w.all (fun c => !pyIsSpace c) = true) →
    List.Chain' (fun a b => (!(pyIsSpace a && pyIsSpace b)) = true) (joinSpace ws) := by
  intro ws
  induction ws with
  | nil => intro _; exact List.chain'_nil
  | cons w ws' ih =>
    intro hgood
    have hw := hgood w (List.mem_cons_self _ _)
    cases ws' with
    | nil => exact chain_of_all_nonspace w hw.2
    | cons w' t =>
      have hgood' : ∀ u ∈ w' :: t, u ≠ [] ∧ u.all (fun c => !pyIsSpace c) = true :=
        fun u hu => hgood u (List.mem_cons_of_mem _ hu)
      have ih' := ih hgood'
      show List.Chain' _ (w ++ ' ' :: joinSpace (w' :: t))
      rw [List.chain'_append]
      refine ⟨chain_of_all_nonspace w hw.2, ?_, ?_⟩
      · rw [List.chain'_cons']
        refine ⟨?_, ih'⟩
        intro y hy
        have hyn : pyIsSpace y = false :=
          joinSpace_head_nonspace (w' :: t) hgood' y (Option.mem_def.mp hy)
        rw [hyn, Bool.and_false]
        rfl
      · intro x hx y hy
        have hxw : x ∈ w := mem_of_getLast?Str hx
        rw [pyIsSpace_false_of_all hw.2 hxw, Bool.false_and]
        rfl

theorem collapsedWs_joinSpace (ws : List Str)
    (hgood : ∀ w ∈ ws, w ≠ [] ∧ w.all (fun c => !pyIsSpace c) = true) :
    collapsedWs (joinSpace ws) = true := by
  unfold collapsedWs
  rw [Bool.and_eq_true, Bool.and_eq_true, Bool.and_eq_true]
  refine ⟨⟨⟨?_, ?_⟩, ?_⟩, ?_⟩
  · cases hh : (joinSpace ws).head? with
    | none => rfl
    | some c =>
      show (!pyIsSpace c) = true
      rw [joinSpace_head_nonspace ws hgood c hh]
      rfl
  · cases hh : (joinSpace ws).getLast? with
    | none => rfl
    | some c =>
      show (!pyIsSpace c) = true
      rw [joinSpace_getLast_nonspace ws hgood c hh]
      rfl
  · exact (noTwoAdjWs_iff_chain _).mpr (joinSpace_chain ws hgood)
  · exact joinSpace_all_space_is_space ws hgood

theorem mkContext_length_le (t : Str) : (mkContext t).length ≤ 400 := by
  unfold mkContext pySplit
  have h1 := joinSpace_pySplitAux_length (pyStrip (t.take 400)) []
  simp only [List.length_nil, Nat.zero_add] at h1
  have h2 : (pyStrip (t.take 400)).length ≤ (t.take 400).length :=
    pyStrip_length_le _
  have h3 : (t.take 400).length ≤ 400 := List.length_take_le _ _
  omega

theorem mkContext_collapsed (t : Str) : collapsedWs (mkContext t) = true := by
  unfold mkContext pySplit
  exact collapsedWs_joinSpace _ (pySplitAux_words _ [] rfl)

/-! ## Lemmas about the context extractor -/

theorem processHit_some {city u : Str} {h : Hit} {c : Ctx}
    (hp : processHit city u h = some c) :
    is_valid_city_match city (elementTextOf h) = true
    ∧ c.context = mkContext (elementTextOf h)
    ∧ 10 < c.context.length := by
  unfold processHit at hp
  by_cases hv : is_valid_city_match city (elementTextOf h) = true
  · rw [if_pos hv] at hp
    by_cases hlen : mkContext (elementTextOf h) ≠ [] ∧
        (mkContext (elementTextOf h)).length > 10
    · rw [if_pos hlen] at hp
      injection hp with hp
      rw [← hp]
      exact ⟨hv, rfl, hlen.2⟩
    · rw [if_neg hlen] at hp
      cases hp
  · rw [if_neg hv] at hp
    cases hp

theorem mem_dedupAux {c : Ctx} : ∀ {seen : List (Str × Str)} {l : List Ctx},
    c ∈ dedupAux seen l → c ∈ l := by
  intro seen l
  induction l generalizing seen with
  | nil => intro h; exact absurd h (by simp [dedupAux])
  | cons d rest ih =>
    intro h
    rw [dedupAux] at h
    split at h
    · exact List.mem_cons_of_mem _ (ih h)
    · rw [List.mem_cons] at h
      rcases h with h | h
      · rw [h]; exact List.mem_cons_self _ _
      · exact List.mem_cons_of_mem _ (ih h)

theorem mem_extract_city_context {city u : Str} {hits : List Hit} {c : Ctx}
    (hc : c ∈ extract_city_context city u hits) :
    ∃ h ∈ hits, hasCityWholeWord city h.nodeText = true ∧
      processHit city u h = some c := by
  have h1 : c ∈ rawContexts city u hits :=
    mem_dedupAux (List.mem_of_mem_take hc)
  rw [rawContexts, List.mem_filterMap] at h1
  obtain ⟨h, hmem, hf⟩ := h1
  by_cases hw : hasCityWholeWord city h.nodeText = true
  · rw [if_pos hw] at hf
    exact ⟨h, hmem, hw, hf⟩
  · rw [if_neg hw] at hf
    cases hf

theorem dedupAux_sublist (seen : List (Str × Str)) (l : List Ctx) :
    (dedupAux seen l).Sublist l := by
  induction l generalizing seen with
  | nil => exact List.Sublist.refl _
  | cons c rest ih =>
    rw [dedupAux]
    split
    · exact (ih seen).trans (List.sublist_cons_self _ _)
    · exact List.Sublist.cons₂ c (ih _)

theorem dedupAux_keys (seen : List (Str × Str)) (l : List Ctx) :
    (dedupAux seen l).Pairwise (fun a b => dedupKey a ≠ dedupKey b)
    ∧ ∀ c ∈ dedupAux seen l, dedupKey c ∉ seen := by
  induction l generalizing seen with
  | nil => exact ⟨List.Pairwise.nil, by simp [dedupAux]⟩
  | cons c rest ih =>
    rw [dedupAux]
    split
    · exact ih seen
    · rename_i hnot
      obtain ⟨hpw, hseen⟩ := ih (dedupKey c :: seen)
      refine ⟨List.pairwise_cons.mpr ⟨?_, hpw⟩, ?_⟩
      · intro b hb he
        exact (hseen b hb) (by rw [← he]; exact List.mem_cons_self _ _)
      · intro d hd
        rw [List.mem_cons] at hd
        rcases hd with hd | hd
        · rw [hd]; exact hnot
        · intro hmem
          exact (hseen d hd) (List.mem_cons_of_mem _ hmem)

theorem dedupAux_of_pairwise : ∀ (l : List Ctx) (seen : List (Str × Str)),
    l.Pairwise (fun a b => dedupKey a ≠ dedupKey b) →
    (∀ c ∈ l, dedupKey c ∉ seen) → dedupAux seen l = l := by
  intro l
  induction l with
  | nil => intro seen _ _; rfl
  | cons c rest ih =>
    intro seen hpw hseen
    rw [dedupAux, if_neg (hseen c (List.mem_cons_self _ _))]
    congr 1
    apply ih
    · exact (List.pairwise_cons.mp hpw).2
    · intro d hd hmem
      rw [List.mem_cons] at hmem
      rcases hmem with he | hmem
      · exact (List.pairwise_cons.mp hpw).1 d hd he.symm
      · exact hseen d (List.mem_cons_of_mem _ hd) hmem

/-- C6: every entry returned by `extract_city_context` has a context of
length at most 400 and strictly greater than 10, with no leading or
trailing whitespace, no two consecutive whitespace characters, and
every internal whitespace character a single plain space. -/
theorem C6_context_bounds (city u : Str) (hits : List Hit) (c : Ctx)
    (hc : c ∈ extract_city_context city u hits) :
    c.context.length ≤ 400 ∧ 10 < c.context.length ∧
      collapsedWs c.context = true := by
  obtain ⟨h, _, _, hp⟩ := mem_extract_city_context hc
  obtain ⟨_, hctx, hlen⟩ := processHit_some hp
  refine ⟨?_, hlen, ?_⟩
  · rw [hctx]; exact mkContext_length_le _
  · rw [hctx]; exact mkContext_collapsed _

theorem C6_witness :
    (⟨S "TA", none, S "paris 75001 logement A", []⟩ : Ctx) ∈
        extract_city_context (S "paris") []
          [⟨S "paris 75001 logement A", [], [], some (S "TA"), none⟩] ∧
      (S "paris 75001 logement A").length ≤ 400 ∧
      10 < (S "paris 75001 logement A").length ∧
      collapsedWs (S "paris 75001 logement A") = true := by
  refine ⟨by decide, ?_⟩
  exact C6_context_bounds (S "paris") []
    [⟨S "paris 75001 logement A", [], [], some (S "TA"), none⟩]
    ⟨S "TA", none, S "paris 75001 logement A", []⟩ (by decide)

/-- C7: `extract_city_context` deduplicates by `(title, first 100
characters of context)`: no two entries of the result share that key,
the result is a sublist of the raw context list (first-seen order
preserved), it has at most 5 entries, and de-duplicating and capping the
result again returns it unchanged (idempotence). -/
theorem C7_dedup_properties (city u : Str) (hits : List Hit) :
    (extract_city_context city u hits).Pairwise
        (fun a b => dedupKey a ≠ dedupKey b)
    ∧ (extract_city_context city u hits).length ≤ 5
    ∧ (extract_city_context city u hits).Sublist (rawContexts city u hits)
    ∧ (dedupAux [] (extract_city_context city u hits)).take 5
        = extract_city_context city u hits := by
  have hpw0 := (dedupAux_keys [] (rawContexts city u hits)).1
  have hpw5 : (extract_city_context city u hits).Pairwise
      (fun a b => dedupKey a ≠ dedupKey b) :=
    List.Pairwise.sublist (List.take_sublist _ _) hpw0
  refine ⟨hpw5, List.length_take_le _ _, ?_, ?_⟩
  · exact (List.take_sublist _ _).trans (dedupAux_sublist _ _)
  · rw [dedupAux_of_pairwise _ [] hpw5 (by simp)]
    rw [extract_city_context, List.take_take]
    rfl

set_option maxRecDepth 10000 in
/-- C8 counterexample: for city `paris`, a parent element whose text
consists of 400 filler characters followed by ` paris 75001 ok` yields
exactly one validated entry — the matched text node contains `paris` as
a whole word and the element text carries the postal code `75001`, so
the validator accepts — yet its 400-character truncated context does not
contain the city name at all. -/
theorem C8_counterexample :
    (extract_city_context (S "paris") [] [c8Hit]).map
        (fun c => hasCityWholeWord (S "paris") c.context) = [false] := by
  decide

/-- C8 amended: every validated match produced by `extract_city_context`
arises from a text node whose own text contains the target city name as
a whole word, case-insensitive; the entry's 400-character truncated
context itself need not contain the city name. -/
theorem C8_entry_from_matching_node (city u : Str) (hits : List Hit) (c : Ctx)
    (hc : c ∈ extract_city_context city u hits) :
    ∃ h ∈ hits, hasCityWholeWord city h.nodeText = true ∧
      processHit city u h = some c := by
  exact mem_extract_city_context hc

theorem C8_witness :
    ∃ h ∈ [(⟨S "paris 75001 logement A", [], [], some (S "TA"), none⟩ : Hit)],
      hasCityWholeWord (S "paris") h.nodeText = true ∧
        processHit (S "paris") [] h =
          some ⟨S "TA", none, S "paris 75001 logement A", []⟩ :=
  C8_entry_from_matching_node (S "paris") []
    [⟨S "paris 75001 logement A", [], [], some (S "TA"), none⟩]
    ⟨S "TA", none, S "paris 75001 logement A", []⟩ (by decide)

/-! ## Lemmas about the pagination estimator -/

theorem linkPages_foldl_of_none : ∀ (hs : List Str) (a : Nat),
    (∀ h ∈ hs, reSearch tryPageParam h = none) →
    hs.foldl
      (fun m h =>
        match reSearch tryPageParam h with
        | some n => Nat.max m n
        | none => m) a = a := by
  intro hs
  induction hs with
  | nil => intro a _; rfl
  | cons h t ih =>
    intro a hall
    rw [List.foldl_cons, hall h (List.mem_cons_self _ _)]
    exact ih a fun h' hh' => hall h' (List.mem_cons_of_mem _ hh')

/-- C5 counterexample: a page whose only pagination signal is the text
`"0 résultats"` makes `get_total_pages` return `0`, not a count that is
at least 1: the result-count branch computes `min (ceil (0 / 20)) 10 =
0` and returns it unconditionally. -/
theorem C5_counterexample : get_total_pages c5Page = 0 := by decide

/-- C5 amended: `get_total_pages` returns exactly 1 when none of the
four fallback signals are present; in general the returned count can be
0 — exactly when the first matching signal carries the numeric value 0
(a `page N sur 0` title, a pagination region whose numeric labels are
all 0, or a `0 résultats` count) — and is otherwise at least 1. -/
theorem C5_pages_amended (p : Page) :
    ((titlePages p = none ∧ navPages p.navLabels = none ∧ resultPages p = none ∧
        (∀ h ∈ p.hrefs, reSearch tryPageParam h = none)) →
      get_total_pages p = 1)
    ∧ (get_total_pages p = 0 →
        titlePages p = some 0 ∨ navPages p.navLabels = some 0 ∨
          resultPages p = some 0) := by
  constructor
  · rintro ⟨h1, h2, h3, h4⟩
    unfold get_total_pages
    rw [h1, h2, h3]
    show (if linkPages p.hrefs > 1 then linkPages p.hrefs else 1) = 1
    have hl : linkPages p.hrefs = 1 := linkPages_foldl_of_none p.hrefs 1 h4
    rw [hl]
    decide
  · intro h0
    unfold get_total_pages at h0
    cases ht : titlePages p with
    | some n =>
      rw [ht] at h0
      have hn0 : n = 0 := h0
      exact Or.inl (by rw [hn0])
    | none =>
      rw [ht] at h0
      cases hn : navPages p.navLabels with
      | some n =>
        rw [hn] at h0
        have hn0 : n = 0 := h0
        exact Or.inr (Or.inl (by rw [hn0]))
      | none =>
        rw [hn] at h0
        cases hr : resultPages p with
        | some n =>
          rw [hr] at h0
          have hn0 : n = 0 := h0
          exact Or.inr (Or.inr (by rw [hn0]))
        | none =>
          rw [hr] at h0
          exfalso
          have h0' : (if linkPages p.hrefs > 1 then linkPages p.hrefs else 1) = 0 := h0
          by_cases hm : linkPages p.hrefs > 1
          · rw [if_pos hm] at h0'
            omega
          · rw [if_neg hm] at h0'
            omega

theorem C5_witness :
    get_total_pages ⟨none, [], S "rien ici", [S "/recherche"], [], [], none⟩ = 1 :=
  (C5_pages_amended ⟨none, [], S "rien ici", [S "/recherche"], [], [], none⟩).1
    (by refine ⟨by decide, by decide, by decide, ?_⟩; decide)

/-! ## Lemmas about the scan orchestrator -/

theorem pageContrib_tags {city : Str} {f : Nat → Option Page} {n : Nat} :
    ∀ e ∈ pageContrib city f n, e.1 = n := by
  intro e he
  unfold pageContrib at he
  cases hfn : f n with
  | none =>
    rw [hfn] at he
    exact absurd he (List.not_mem_nil e)
  | some p =>
    rw [hfn] at he
    have he' : e ∈ (if check_for_city_anywhere city p = true then
        (extract_city_context city (pageUrlOf p) p.hits).map (fun c => (n, c))
      else []) := he
    by_cases hchk : check_for_city_anywhere city p = true
    · rw [if_pos hchk] at he'
      rw [List.mem_map] at he'
      obtain ⟨c, _, hc⟩ := he'
      rw [← hc]
    · rw [if_neg hchk] at he'
      exact absurd he' (List.not_mem_nil e)

theorem pageContrib_drop_ne {city : Str} {f : Nat → Option Page} {k n : Nat}
    (hne : n ≠ k) : pageContrib city (fetchDrop f k) n = pageContrib city f n := by
  unfold pageContrib fetchDrop
  rw [if_neg hne]

theorem pageContrib_drop_eq {city : Str} {f : Nat → Option Page} {k : Nat} :
    pageContrib city (fetchDrop f k) k = [] := by
  unfold pageContrib fetchDrop
  rw [if_pos rfl]

theorem flatMap_filter (p : (Nat × Ctx) → Bool) (g : Nat → List (Nat × Ctx)) :
    ∀ l : List Nat, (l.flatMap g).filter p = l.flatMap fun n => (g n).filter p := by
  intro l
  induction l with
  | nil => rfl
  | cons n t ih => simp only [List.flatMap_cons, List.filter_append, ih]

theorem flatMap_congr_fun {g₁ g₂ : Nat → List (Nat × Ctx)} :
    ∀ l : List Nat, (∀ n ∈ l, g₁ n = g₂ n) → l.flatMap g₁ = l.flatMap g₂ := by
  intro l
  induction l with
  | nil => intro _; rfl
  | cons n t ih =>
    intro hall
    simp only [List.flatMap_cons]
    rw [hall n (List.mem_cons_self _ _), ih fun m hm => hall m (List.mem_cons_of_mem _ hm)]

theorem filter_pageContrib_ne {city : Str} {f : Nat → Option Page} {k n : Nat}
    (hne : n ≠ k) :
    (pageContrib city f n).filter (fun e => e.1 != k) = pageContrib city f n := by
  apply List.filter_eq_self.mpr
  intro e he
  rw [pageContrib_tags e he]
  exact bne_iff_ne.mpr hne

theorem filter_pageContrib_eq {city : Str} {f : Nat → Option Page} {k : Nat} :
    (pageContrib city f k).filter (fun e => e.1 != k) = [] := by
  apply List.filter_eq_nil_iff.mpr
  intro e he
  rw [pageContrib_tags e he]
  simp

/-- C9: if fetching the first page fails, the scan reports overall
failure (`none`, no partial result); if fetching a later page `k ≥ 2`
fails, exactly that page's contribution is dropped from the aggregated
results and all other pages' contributions are kept in page order. -/
theorem C9_fetch_failures (city : Str) (m : Nat) (f : Nat → Option Page) (k : Nat)
    (hk : 2 ≤ k) :
    (f 1 = none → scan_for_city_accommodations city m f = none)
    ∧ scanList city m (fetchDrop f k)
        = (scanList city m f).filter (fun e => e.1 != k) := by
  constructor
  · intro h1
    unfold scan_for_city_accommodations
    rw [h1]
  · have h1k : (1 : Nat) ≠ k := by omega
    unfold scanList
    rw [show fetchDrop f k 1 = f 1 from if_neg h1k]
    cases hf1 : f 1 with
    | none => rfl
    | some p1 =>
      show pageContrib city (fetchDrop f k) 1
            ++ (List.range' 2 (Nat.min m (get_total_pages p1) - 1)).flatMap
                 (pageContrib city (fetchDrop f k))
          = List.filter (fun e => e.1 != k)
              (pageContrib city f 1
                ++ (List.range' 2 (Nat.min m (get_total_pages p1) - 1)).flatMap
                     (pageContrib city f))
      rw [List.filter_append]
      congr 1
      · rw [pageContrib_drop_ne h1k, filter_pageContrib_ne h1k]
      · rw [flatMap_filter]
        apply flatMap_congr_fun
        intro n _
        by_cases hnk : n = k
        · rw [hnk, pageContrib_drop_eq, filter_pageContrib_eq]
        · rw [pageContrib_drop_ne hnk, filter_pageContrib_ne hnk]

theorem C9_witness :
    scan_for_city_accommodations (S "paris") 3 (fun _ => none) = none
    ∧ scanList (S "paris") 3 (fetchDrop c9fetch 2)
        = (scanList (S "paris") 3 c9fetch).filter (fun e => e.1 != 2)
    ∧ (scanList (S "paris") 3 c9fetch).map Prod.fst = [1, 2, 3]
    ∧ (scanList (S "paris") 3 (fetchDrop c9fetch 2)).map Prod.fst = [1, 3] :=
  ⟨(C9_fetch_failures (S "paris") 3 (fun _ => none) 2 (by decide)).1 rfl,
   (C9_fetch_failures (S "paris") 3 c9fetch 2 (by decide)).2,
   by decide, by decide⟩
